import Mathlib

/-!
Verification development for the Orion chapter-generation workflow.

The definitions below are a shallow embedding of the orchestration code in
src/backend/app: the beat decomposer sizing policy (agents/beater.py), the
write/review/revise loop and the per-beat chapter loop
(workflows/chapter_loop.py), the LangGraph routing function
(workflows/graph.py), the pause handling (services/generation_logic.py) and
the context assembly (agents/lorekeeper.py).  Calls out to language models
and to the vector store are modelled as oracle function parameters; database
commits are modelled as explicit snapshots of the rows the code mutates.
-/

namespace Orion

/-- Python `len(s.split())` splits on whitespace runs and drops empty pieces;
this models the word counts computed in chapter_loop.py. -/
def pySplit (s : String) : List String :=
  (s.split fun c => c.isWhitespace).filter (fun w => w ≠ "")

/-- Word count as computed by `len(text.split())` in chapter_loop.py. -/
def pyWordCount (s : String) : Nat :=
  (pySplit s).length

/-- Python slice `s[-n:]` (used for the trailing prose window
`chapter_text[-2000:]` handed to the ghostwriter). -/
def pyTailSlice (s : String) (n : Nat) : String :=
  s.drop (s.length - n)

/-- The accumulation step of chapter_loop.py line 198:
`chapter_text += "\n\n" + beat_text if chapter_text else beat_text`. -/
def pyAppend (acc beat_text : String) : String :=
  if acc = "" then beat_text else acc ++ "\n\n" ++ beat_text

/-- Modelled from the spec: the accepted beat proses concatenated in beat
order, separated by a paragraph break. -/
def sepConcat : List String → String
  | [] => ""
  | [p] => p
  | p :: q :: ps => p ++ "\n\n" ++ sepConcat (q :: ps)

/-- Beat count requested by BeaterAgent.generate_beats (beater.py line 118):
`num_beats = max(8, min(20, target_word_count // 150))`. -/
def num_beats (target_word_count : Nat) : Nat :=
  max 8 (min 20 (target_word_count / 150))

/-- Modelled from the spec wording: clamp(target_word_count / 150,
minimum 8, maximum 20). -/
def spec_beat_count_clamp (target_word_count : Nat) : Nat :=
  min (max (target_word_count / 150) 8) 20

/-- A single issue of an editing report (editor.py EditingIssue). -/
structure EditingIssue where
  severity : String
  category : String
  quote : String
  issue : String
  suggestion : String
deriving DecidableEq

/-- Structured review returned by EditorAgent.review_prose
(editor.py EditingReport). -/
structure EditingReport where
  overall_quality : Int
  issues : List EditingIssue
  strengths : List String
  recommend_rewrite : Bool
  summary : String
deriving DecidableEq

/-- Revision cap (chapter_loop.py: `self.max_revisions = 3`). -/
def max_revisions : Nat := 3

/-- Acceptance threshold (chapter_loop.py:
`self.min_acceptable_quality = 6`). -/
def min_acceptable_quality : Int := 6

/-- Feedback string synthesised before a rewrite (chapter_loop.py lines
274-278): the report summary plus one line per critical/major issue. -/
def mkFeedback (report : EditingReport) : String :=
  report.summary ++ "\n" ++ String.intercalate "\n"
    ((report.issues.filter
        (fun i => i.severity == "critical" || i.severity == "major")).map
      (fun i => "- " ++ i.issue ++ ": " ++ i.suggestion))

/-- Outcome of the write/review/revise loop for one beat: the accepted
prose, the final revision count, and the proses that were handed to the
reviewer, in review order. -/
structure EditLoopResult where
  prose : String
  revision_count : Nat
  reviewed : List String
deriving DecidableEq

/-- The edit loop of ChapterLoopWorkflow._write_beat_with_editing
(chapter_loop.py lines 256-287).  `review_prose i p` is the editor oracle
for the review performed at revision count `i`; `rewrite_with_feedback i p f`
is the ghostwriter rewrite oracle.  The fuel argument equals
`max_revisions - revision_count`, so the `while revision_count <
max_revisions` condition is exactly `fuel > 0`. -/
def editLoopGo (review_prose : Nat → String → EditingReport)
    (rewrite_with_feedback : Nat → String → String → String) :
    Nat → String → Nat → EditLoopResult
  | 0, prose, rc => ⟨prose, rc, []⟩
  | fuel + 1, prose, rc =>
    let report := review_prose rc prose
    if min_acceptable_quality ≤ report.overall_quality then ⟨prose, rc, [prose]⟩
    else if !report.recommend_rewrite then ⟨prose, rc, [prose]⟩
    else
      let res := editLoopGo review_prose rewrite_with_feedback fuel
        (rewrite_with_feedback rc prose (mkFeedback report)) (rc + 1)
      ⟨res.prose, res.revision_count, prose :: res.reviewed⟩

/-- ChapterLoopWorkflow._write_beat_with_editing: the initial ghostwriter
draft `initial` enters the edit loop with revision count 0. -/
def write_beat_with_editing (review_prose : Nat → String → EditingReport)
    (rewrite_with_feedback : Nat → String → String → String)
    (initial : String) : EditLoopResult :=
  editLoopGo review_prose rewrite_with_feedback max_revisions initial 0

/-- The n-fold feedback rewrite: `proseIterFrom R W p rc n` is the prose
obtained from `p` after `n` review-then-rewrite rounds starting at revision
count `rc`. -/
def proseIterFrom (review_prose : Nat → String → EditingReport)
    (rewrite_with_feedback : Nat → String → String → String) :
    String → Nat → Nat → String
  | p, _, 0 => p
  | p, rc, n + 1 =>
    proseIterFrom review_prose rewrite_with_feedback
      (rewrite_with_feedback rc p (mkFeedback (review_prose rc p))) (rc + 1) n

/-- The proses reviewed during `n` review-then-rewrite rounds starting from
`p` at revision count `rc`: the iterates before each rewrite. -/
def reviewedIterList (review_prose : Nat → String → EditingReport)
    (rewrite_with_feedback : Nat → String → String → String) :
    String → Nat → Nat → List String
  | _, _, 0 => []
  | p, rc, n + 1 =>
    p :: reviewedIterList review_prose rewrite_with_feedback
      (rewrite_with_feedback rc p (mkFeedback (review_prose rc p))) (rc + 1) n

/-- NovelWorkflow._route_after_edit (graph.py lines 381-396), with the
report fields and the state's revision count passed explicitly. -/
def route_after_edit (error_message : Option String)
    (report_overall_quality : Int) (report_recommend_rewrite : Bool)
    (revision_count : Nat) : String :=
  if error_message.isSome then "error"
  else if 6 ≤ report_overall_quality ∨ 3 ≤ revision_count then "accept"
  else if report_recommend_rewrite then "rewrite"
  else "accept"

/-- A persisted beat row (db/models.py Beat, the fields the chapter loop
touches). -/
structure BeatRec where
  order : Nat
  description : String
  status : String
  raw_text : Option String
  word_count : Option Nat
deriving DecidableEq

/-- The update applied to a beat row after its prose is accepted
(chapter_loop.py lines 201-203). -/
def completedBeat (b : BeatRec) (t : String) : BeatRec :=
  { b with raw_text := some t, word_count := some (pyWordCount t),
           status := "completed" }

/-- What one per-beat `db.commit()` (chapter_loop.py line 204) persists:
the accepted prose, the in-memory accumulated chapter text at that point,
the finalized beat row, and the chapter row's raw_text as it stands in the
database at that commit (the loop never assigns `chapter.raw_text`; that
happens only at finalization, line 207). -/
structure CommitSnapshot where
  prose : String
  accText : String
  beatRow : BeatRec
  chapterRawText : Option String
deriving DecidableEq

/-- Result of the per-beat loop of generate_chapter: either the loop ran to
the end, or the pause check fired at the boundary before beat `atBeat`
(0-indexed) and an InterruptedError unwound the loop.  `beats` is the list
of persisted beat rows (processed ones finalized, the rest untouched) and
`trace` records the per-beat commits in order. -/
inductive RunResult where
  | done (text : String) (beats : List BeatRec) (trace : List CommitSnapshot)
  | paused (atBeat : Nat) (text : String) (beats : List BeatRec)
      (trace : List CommitSnapshot)
deriving DecidableEq

/-- The accumulated chapter text carried by a run result. -/
def RunResult.text : RunResult → String
  | .done t _ _ => t
  | .paused _ t _ _ => t

/-- The persisted beat rows carried by a run result. -/
def RunResult.beats : RunResult → List BeatRec
  | .done _ bs _ => bs
  | .paused _ _ bs _ => bs

/-- The per-beat commit snapshots carried by a run result. -/
def RunResult.trace : RunResult → List CommitSnapshot
  | .done _ _ tr => tr
  | .paused _ _ _ tr => tr

/-- Whether the run was unwound by a pause interruption. -/
def RunResult.isPaused : RunResult → Bool
  | .done _ _ _ => false
  | .paused _ _ _ _ => true

/-- The boundary index at which the pause fired, if any. -/
def RunResult.pausedAt : RunResult → Option Nat
  | .done _ _ _ => none
  | .paused k _ _ _ => some k

/-- The beat loop of ChapterLoopWorkflow.generate_chapter (chapter_loop.py
lines 178-204).  At the boundary before beat `i` the progress callback runs
and `check_pause i` tells whether the pause signal is set there
(generation_logic.py lines 109-117 raise InterruptedError in that case,
before the beat is written).  Otherwise `write_beat i w` is the accepted
prose returned by the write/review/revise pipeline for beat `i` given the
trailing window `w` of the accumulated text; the beat row is finalized and
committed together with the (unchanged) chapter row raw_text `chapterRaw`.
Note the loop iterates over every fetched beat row: the query at lines
170-175 does not filter on beat status. -/
def runBeats (check_pause : Nat → Bool) (write_beat : Nat → String → String)
    (chapterRaw : Option String) :
    Nat → String → List BeatRec → RunResult
  | _, acc, [] => .done acc [] []
  | i, acc, b :: bs =>
    if check_pause i then .paused i acc (b :: bs) []
    else
      let t := write_beat i (pyTailSlice acc 2000)
      let acc2 := pyAppend acc t
      let b2 := completedBeat b t
      match runBeats check_pause write_beat chapterRaw (i + 1) acc2 bs with
      | .done tf bsf tr => .done tf (b2 :: bsf) (⟨t, acc2, b2, chapterRaw⟩ :: tr)
      | .paused k tf bsf tr =>
          .paused k tf (b2 :: bsf) (⟨t, acc2, b2, chapterRaw⟩ :: tr)

/-- generate_chapter's beat loop started on a fresh chapter: accumulated
text starts empty and the chapter row's raw_text is still NULL. -/
def generate_chapter_run (check_pause : Nat → Bool)
    (write_beat : Nat → String → String) (beats : List BeatRec) : RunResult :=
  runBeats check_pause write_beat none 0 "" beats

/-- The chapter row fields written at finalization. -/
structure ChapterRow where
  raw_text : Option String
  word_count : Option Nat
  status : String
deriving DecidableEq

/-- Chapter finalization (chapter_loop.py lines 206-210): only a run that
reached the end of the beat list assigns `chapter.raw_text`,
`chapter.word_count` and status "completed"; a pause interruption unwinds
before this point. -/
def finalize_chapter : RunResult → Option ChapterRow
  | .done t _ _ => some ⟨some t, some (pyWordCount t), "completed"⟩
  | .paused _ _ _ _ => none

/-- Project status after generate_chapters_logic (generation_logic.py lines
120-130): an InterruptedError from the pause check sets the project status
to "paused"; otherwise the status is left as it was. -/
def project_status_after_run (prev : String) : RunResult → String
  | .done _ _ _ => prev
  | .paused _ _ _ _ => "paused"

/-- The chapter selection of generate_all_chapters (chapter_loop.py lines
331-337): a chapter is picked up iff its order is at least start_chapter
and its status is exactly "pending". -/
def chapter_selected_for_generation (start_chapter : Nat) (order : Nat)
    (status : String) : Bool :=
  decide (start_chapter ≤ order) && (status == "pending")

/-- Outcome of the decomposition phase of generate_chapter (chapter_loop.py
lines 114-165): chapter status was set to "generating" (line 118) before
the Beater call; if that call raises, the exception propagates with no beat
rows created and the status still "generating"; on success one beat row per
returned beat is persisted. -/
structure ChapterGenOutcome where
  raised : Option String
  chapter_status : String
  beats_created : Nat
deriving DecidableEq

/-- The decomposition phase of generate_chapter, parameterised by the
Beater call's outcome (a DecompositionError message or the beat
descriptions). -/
def decomposition_phase (decomp : Except String (List String)) :
    ChapterGenOutcome :=
  match decomp with
  | .error e => ⟨some e, "generating", 0⟩
  | .ok ds => ⟨none, "generating", ds.length⟩

/-- Context package assembled by the Lorekeeper (lorekeeper.py
ContextPackage). -/
structure ContextPackage where
  character_context : String
  world_context : String
  recent_events : String
  relevant_scenes : List String
  story_so_far : String
  warnings : List String
deriving DecidableEq

/-- LorekeeperAgent.assemble_context_for_writing (lorekeeper.py lines
261-292), with each lookup's outcome passed in.  The body performs the
three lookups in sequence with no exception handling, so the first failing
lookup propagates out of the assembly. -/
def assemble_context_for_writing
    (get_character_context : Except String String)
    (get_world_context : Except String String)
    (get_relevant_scenes : Except String (List String))
    (story_so_far : String) : Except String ContextPackage := do
  let cc ← get_character_context
  let wc ← get_world_context
  let rs ← get_relevant_scenes
  pure
    { character_context := cc
      world_context := wc
      recent_events :=
        if rs.isEmpty then ""
        else String.intercalate "\n---\n" (rs.drop (rs.length - 2))
      relevant_scenes := rs
      story_so_far := story_so_far
      warnings := [] }

/-- generate_chapter's use of the assembled context (chapter_loop.py lines
123-130): the call is not wrapped in any handler, so a context assembly
error propagates and the rest of the chapter generation never runs. -/
def generate_chapter_abort_on_context
    (ctx : Except String ContextPackage)
    (runRest : ContextPackage → RunResult) : Except String RunResult :=
  match ctx with
  | .error e => .error e
  | .ok c => .ok (runRest c)

/-- The prefix of the beat loop actually executed before a pause at
boundary `k`: the accumulated text and the finalized beat rows of the first
`k` beats. -/
def prefixRun (write_beat : Nat → String → String) :
    Nat → String → List BeatRec → Nat → String × List BeatRec
  | _, acc, _, 0 => (acc, [])
  | _, acc, [], _ + 1 => (acc, [])
  | i, acc, b :: bs, k + 1 =>
    let t := write_beat i (pyTailSlice acc 2000)
    let res := prefixRun write_beat (i + 1) (pyAppend acc t) bs k
    (res.1, completedBeat b t :: res.2)

/-- The commit snapshots of the first `k` beats of the loop. -/
def prefixTrace (write_beat : Nat → String → String)
    (chapterRaw : Option String) :
    Nat → String → List BeatRec → Nat → List CommitSnapshot
  | _, _, _, 0 => []
  | _, _, [], _ + 1 => []
  | i, acc, b :: bs, k + 1 =>
    let t := write_beat i (pyTailSlice acc 2000)
    ⟨t, pyAppend acc t, completedBeat b t, chapterRaw⟩ ::
      prefixTrace write_beat chapterRaw (i + 1) (pyAppend acc t) bs k

/-- A stub reviewer that always scores 3 with recommend_rewrite true. -/
def stubBadReview : Nat → String → EditingReport :=
  fun _ _ =>
    { overall_quality := 3, issues := [], strengths := []
      recommend_rewrite := true, summary := "needs work" }

/-- A stub rewrite oracle that appends a marker to the prose. -/
def stubRewrite : Nat → String → String → String :=
  fun _ p _ => p ++ "!"

/-- Two fresh pending beat rows, as created by the decomposition step. -/
def twoPendingBeats : List BeatRec :=
  [⟨1, "b1", "pending", none, none⟩, ⟨2, "b2", "pending", none, none⟩]

/-- Beat rows of a chapter interrupted after beat 4 of 10: beats 1-4 are
persisted as completed with their prose, beats 5-10 are still pending. -/
def interruptedChapterBeats : List BeatRec :=
  (List.range 10).map fun n =>
    ⟨n + 1, "beat",
      if n < 4 then "completed" else "pending",
      if n < 4 then some ("old" ++ toString (n + 1)) else none,
      if n < 4 then some 1 else none⟩

theorem editLoopGo_rc_ge (R : Nat → String → EditingReport)
    (W : Nat → String → String → String) :
    ∀ (fuel : Nat) (p : String) (rc : Nat),
      rc ≤ (editLoopGo R W fuel p rc).revision_count := by
  intro fuel
  induction fuel with
  | zero => intro p rc; simp [editLoopGo]
  | succ n ih =>
    intro p rc
    simp only [editLoopGo]
    split_ifs with h1 h2
    · simp
    · simp
    · have h := ih (W rc p (mkFeedback (R rc p))) (rc + 1)
      simp only []
      omega

theorem editLoopGo_rc_le (R : Nat → String → EditingReport)
    (W : Nat → String → String → String) :
    ∀ (fuel : Nat) (p : String) (rc : Nat),
      (editLoopGo R W fuel p rc).revision_count ≤ rc + fuel := by
  intro fuel
  induction fuel with
  | zero => intro p rc; simp [editLoopGo]
  | succ n ih =>
    intro p rc
    simp only [editLoopGo]
    split_ifs with h1 h2
    · simp
    · simp
    · have h := ih (W rc p (mkFeedback (R rc p))) (rc + 1)
      simp only []
      omega

theorem editLoopGo_reviewed_le (R : Nat → String → EditingReport)
    (W : Nat → String → String → String) :
    ∀ (fuel : Nat) (p : String) (rc : Nat),
      (editLoopGo R W fuel p rc).reviewed.length ≤ fuel := by
  intro fuel
  induction fuel with
  | zero => intro p rc; simp [editLoopGo]
  | succ n ih =>
    intro p rc
    simp only [editLoopGo]
    split_ifs with h1 h2
    · simp
    · simp
    · have h := ih (W rc p (mkFeedback (R rc p))) (rc + 1)
      simp only [List.length_cons]
      omega

theorem editLoopGo_exhaust (R : Nat → String → EditingReport)
    (W : Nat → String → String → String) :
    ∀ (fuel : Nat) (p : String) (rc : Nat),
      (editLoopGo R W fuel p rc).revision_count = rc + fuel →
      (editLoopGo R W fuel p rc).prose = proseIterFrom R W p rc fuel ∧
      (editLoopGo R W fuel p rc).reviewed = reviewedIterList R W p rc fuel := by
  intro fuel
  induction fuel with
  | zero =>
    intro p rc _
    simp [editLoopGo, proseIterFrom, reviewedIterList]
  | succ n ih =>
    intro p rc h
    by_cases h1 : min_acceptable_quality ≤ (R rc p).overall_quality
    · exfalso
      have hx : (editLoopGo R W (n + 1) p rc).revision_count = rc := by
        simp [editLoopGo, h1]
      omega
    · by_cases h2 : (R rc p).recommend_rewrite
      · have estep : editLoopGo R W (n + 1) p rc =
            ⟨(editLoopGo R W n (W rc p (mkFeedback (R rc p))) (rc + 1)).prose,
              (editLoopGo R W n (W rc p (mkFeedback (R rc p)))
                (rc + 1)).revision_count,
              p :: (editLoopGo R W n (W rc p (mkFeedback (R rc p)))
                (rc + 1)).reviewed⟩ := by
          simp [editLoopGo, h1, h2]
        rw [estep] at h
        change (editLoopGo R W n (W rc p (mkFeedback (R rc p)))
          (rc + 1)).revision_count = rc + (n + 1) at h
        have h' : (editLoopGo R W n (W rc p (mkFeedback (R rc p)))
            (rc + 1)).revision_count = (rc + 1) + n := by omega
        obtain ⟨hp, hr⟩ := ih (W rc p (mkFeedback (R rc p))) (rc + 1) h'
        rw [estep]
        exact ⟨hp, congrArg (fun l => p :: l) hr⟩
      · exfalso
        have hx : (editLoopGo R W (n + 1) p rc).revision_count = rc := by
          simp [editLoopGo, h1, h2]
        omega

theorem editLoopGo_always_bad (R : Nat → String → EditingReport)
    (W : Nat → String → String → String)
    (hbad : ∀ i p, (R i p).overall_quality < min_acceptable_quality ∧
      (R i p).recommend_rewrite = true) :
    ∀ (fuel : Nat) (p : String) (rc : Nat),
      (editLoopGo R W fuel p rc).revision_count = rc + fuel := by
  intro fuel
  induction fuel with
  | zero => intro p rc; simp [editLoopGo]
  | succ n ih =>
    intro p rc
    have h1 : ¬ min_acceptable_quality ≤ (R rc p).overall_quality :=
      not_le.mpr (hbad rc p).1
    have h2 : (R rc p).recommend_rewrite = true := (hbad rc p).2
    have estep : editLoopGo R W (n + 1) p rc =
        ⟨(editLoopGo R W n (W rc p (mkFeedback (R rc p))) (rc + 1)).prose,
          (editLoopGo R W n (W rc p (mkFeedback (R rc p)))
            (rc + 1)).revision_count,
          p :: (editLoopGo R W n (W rc p (mkFeedback (R rc p)))
            (rc + 1)).reviewed⟩ := by
      simp [editLoopGo, h1, h2]
    rw [estep]
    change (editLoopGo R W n (W rc p (mkFeedback (R rc p)))
      (rc + 1)).revision_count = rc + (n + 1)
    have h := ih (W rc p (mkFeedback (R rc p))) (rc + 1)
    omega

theorem reviewedIterList_length (R : Nat → String → EditingReport)
    (W : Nat → String → String → String) :
    ∀ (n : Nat) (p : String) (rc : Nat),
      (reviewedIterList R W p rc n).length = n := by
  intro n
  induction n with
  | zero => intro p rc; simp [reviewedIterList]
  | succ m ih => intro p rc; simp [reviewedIterList, ih]

/-- C9: the beat count requested by the decomposer is
`max(8, min(20, target_word_count // 150))`, which equals the spec's
clamp(target_word_count / 150, minimum 8, maximum 20) for every target word
count, always lies in [8, 20], and for target 2000 equals 13, hence is
between 8 and 13. -/
theorem beat_count_clamp_policy :
    (∀ t : Nat, num_beats t = spec_beat_count_clamp t ∧
      8 ≤ num_beats t ∧ num_beats t ≤ 20) ∧
    (num_beats 2000 = 13 ∧ 8 ≤ num_beats 2000 ∧ num_beats 2000 ≤ 13) := by
  constructor
  · intro t
    unfold num_beats spec_beat_count_clamp
    refine ⟨?_, ?_, ?_⟩ <;>
      (simp only [Nat.max_def, Nat.min_def]; split_ifs <;> omega)
  · exact ⟨by decide, by decide, by decide⟩

/-- C3 counterexample: in the graph routing implementation, a review with
quality 3 (below the threshold 6) and recommend_rewrite true is routed to
"accept" when the state's revision count has reached 3, so acceptance is
not equivalent to (quality >= 6 or not recommend_rewrite) there. -/
theorem route_after_edit_cap_counterexample :
    route_after_edit none 3 true 3 = "accept" ∧
    ¬ ((6 : Int) ≤ 3 ∨ (true = false)) := by
  constructor
  · rfl
  · decide

/-- C3 (amended): at every review in the chapter-loop edit loop, the prose
is accepted (no rewrite happens, the revision count stays put) iff the
review's quality is at least the threshold 6 or the review does not
recommend a rewrite; in the graph routing implementation the decision is
"accept" iff quality >= 6, or the revision count has reached the cap 3, or
the review does not recommend a rewrite — the revision-cap disjunct is
extra there. -/
theorem review_accept_iff_quality_or_no_recommend :
    (∀ (R : Nat → String → EditingReport) (W : Nat → String → String → String)
        (fuel : Nat) (p : String) (rc : Nat),
      (editLoopGo R W (fuel + 1) p rc).revision_count = rc ↔
        (min_acceptable_quality ≤ (R rc p).overall_quality ∨
          (R rc p).recommend_rewrite = false)) ∧
    (∀ (q : Int) (b : Bool) (rc : Nat),
      route_after_edit none q b rc = "accept" ↔
        (6 ≤ q ∨ 3 ≤ rc ∨ b = false)) := by
  constructor
  · intro R W fuel p rc
    constructor
    · intro h
      by_contra hc
      push_neg at hc
      obtain ⟨hq, hr⟩ := hc
      have h2 : (R rc p).recommend_rewrite = true := by
        cases hrec : (R rc p).recommend_rewrite
        · exact absurd hrec hr
        · rfl
      have hge := editLoopGo_rc_ge R W fuel (W rc p (mkFeedback (R rc p))) (rc + 1)
      have estep : editLoopGo R W (fuel + 1) p rc =
          ⟨(editLoopGo R W fuel (W rc p (mkFeedback (R rc p))) (rc + 1)).prose,
            (editLoopGo R W fuel (W rc p (mkFeedback (R rc p)))
              (rc + 1)).revision_count,
            p :: (editLoopGo R W fuel (W rc p (mkFeedback (R rc p)))
              (rc + 1)).reviewed⟩ := by
        simp [editLoopGo, hq, h2]
      rw [estep] at h
      change (editLoopGo R W fuel (W rc p (mkFeedback (R rc p)))
        (rc + 1)).revision_count = rc at h
      omega
    · intro h
      rcases h with hq | hr
      · simp [editLoopGo, hq]
      · by_cases hq : min_acceptable_quality ≤ (R rc p).overall_quality
        · simp [editLoopGo, hq]
        · simp [editLoopGo, hq, hr]
  · intro q b rc
    by_cases h1 : (6 ≤ q ∨ 3 ≤ rc)
    · have hroute : route_after_edit none q b rc = "accept" := by
        simp [route_after_edit, h1]
      rw [hroute]
      simp only [true_iff]
      tauto
    · push_neg at h1
      obtain ⟨hq1, hr1⟩ := h1
      have hcond : ¬ (6 ≤ q ∨ 3 ≤ rc) := by
        push_neg
        exact ⟨hq1, hr1⟩
      cases hb : b
      · have hroute : route_after_edit none q false rc = "accept" := by
          simp [route_after_edit, hcond]
        rw [hroute]
        simp only [true_iff]
        tauto
      · have hroute : route_after_edit none q true rc = "rewrite" := by
          simp [route_after_edit, hcond]
        rw [hroute]
        constructor
        · intro hx
          exact absurd hx (by decide)
        · rintro (hx | hx | hx)
          · omega
          · omega
          · exact absurd hx (by decide)

/-- C2: for every reviewer and rewriter oracle the write-review-revise loop
terminates with at most max_revisions (3) rewrites and at most 3 reviews
(so revision_count never exceeds the cap), and when every review scores
below the threshold with recommend_rewrite true, the loop performs exactly
3 rewrites, leaves revision_count = 3, and accepts the prose produced by
the third rewrite. -/
theorem edit_loop_bounded_and_exhausts (R : Nat → String → EditingReport)
    (W : Nat → String → String → String) (p0 : String) :
    (write_beat_with_editing R W p0).revision_count ≤ max_revisions ∧
    (write_beat_with_editing R W p0).reviewed.length ≤ max_revisions ∧
    ((∀ i p, (R i p).overall_quality < min_acceptable_quality ∧
        (R i p).recommend_rewrite = true) →
      (write_beat_with_editing R W p0).revision_count = max_revisions ∧
      (write_beat_with_editing R W p0).prose =
        proseIterFrom R W p0 0 max_revisions) := by
  refine ⟨?_, ?_, ?_⟩
  · have h := editLoopGo_rc_le R W max_revisions p0 0
    simpa [write_beat_with_editing] using h
  · exact editLoopGo_reviewed_le R W max_revisions p0 0
  · intro hbad
    have hrc := editLoopGo_always_bad R W hbad max_revisions p0 0
    have hx := editLoopGo_exhaust R W max_revisions p0 0 hrc
    constructor
    · simpa [write_beat_with_editing] using hrc
    · exact hx.1

/-- Witness for C2: the stub reviewer always scores 3 with
recommend_rewrite true, so the loop does exactly 3 rewrites on the initial
draft "p" and accepts the third rewrite. -/
theorem edit_loop_bounded_and_exhausts_witness :
    (write_beat_with_editing stubBadReview stubRewrite "p").revision_count =
      max_revisions ∧
    (write_beat_with_editing stubBadReview stubRewrite "p").prose =
      proseIterFrom stubBadReview stubRewrite "p" 0 max_revisions :=
  (edit_loop_bounded_and_exhausts stubBadReview stubRewrite "p").2.2
    (fun _ _ => ⟨by norm_num [stubBadReview, min_acceptable_quality], rfl⟩)

/-- C10: whenever the edit loop returns with revision_count equal to the
cap (accept-on-exhaustion), the accepted prose is the prose produced by the
cap-th rewrite, and the proses that were reviewed are exactly the iterates
before each of the cap rewrites — so every review preceded a rewrite and
the returned prose itself was never reviewed. -/
theorem accept_on_exhaustion_never_reviewed (R : Nat → String → EditingReport)
    (W : Nat → String → String → String) (p0 : String)
    (h : (write_beat_with_editing R W p0).revision_count = max_revisions) :
    (write_beat_with_editing R W p0).prose =
      proseIterFrom R W p0 0 max_revisions ∧
    (write_beat_with_editing R W p0).reviewed =
      reviewedIterList R W p0 0 max_revisions ∧
    (write_beat_with_editing R W p0).reviewed.length = max_revisions := by
  have hx := editLoopGo_exhaust R W max_revisions p0 0
    (by simpa [write_beat_with_editing] using h)
  refine ⟨hx.1, hx.2, ?_⟩
  have hr : (write_beat_with_editing R W p0).reviewed =
      reviewedIterList R W p0 0 max_revisions := hx.2
  rw [hr, reviewedIterList_length]

/-- Witness for C10: with the always-bad stub reviewer the loop exhausts
the cap on the draft "p"; its result satisfies the exhaustion
characterisation. -/
theorem accept_on_exhaustion_never_reviewed_witness :
    (write_beat_with_editing stubBadReview stubRewrite "p").prose =
      proseIterFrom stubBadReview stubRewrite "p" 0 max_revisions ∧
    (write_beat_with_editing stubBadReview stubRewrite "p").reviewed =
      reviewedIterList stubBadReview stubRewrite "p" 0 max_revisions ∧
    (write_beat_with_editing stubBadReview stubRewrite "p").reviewed.length =
      max_revisions :=
  accept_on_exhaustion_never_reviewed stubBadReview stubRewrite "p" (by decide)

theorem append_ne_empty (a b : String) (h : a ≠ "") : a ++ b ≠ "" := by
  cases a with
  | mk l =>
    cases b with
    | mk m =>
      intro hc
      apply h
      have hd : l ++ m = ([] : List Char) := congrArg String.data hc
      have hl : l = [] := (List.append_eq_nil.mp hd).1
      subst hl
      rfl

theorem sepConcat_cons_append (a p : String) (l : List String) :
    sepConcat ((a ++ "\n\n" ++ p) :: l) = a ++ "\n\n" ++ sepConcat (p :: l) := by
  cases l with
  | nil => simp [sepConcat]
  | cons q l' => simp [sepConcat, String.append_assoc]

theorem foldl_pyAppend_ne (l : List String) :
    ∀ acc : String, acc ≠ "" →
      List.foldl pyAppend acc l = sepConcat (acc :: l) := by
  induction l with
  | nil => intro acc _; simp [sepConcat]
  | cons p l ih =>
    intro acc h
    rw [List.foldl_cons]
    have hstep : pyAppend acc p = acc ++ "\n\n" ++ p := by
      simp [pyAppend, h]
    rw [hstep, ih (acc ++ "\n\n" ++ p) (append_ne_empty _ _ (append_ne_empty _ _ h)),
      sepConcat_cons_append]
    rfl

theorem foldl_pyAppend_sepConcat (l : List String) (h : ∀ p ∈ l, p ≠ "") :
    List.foldl pyAppend "" l = sepConcat l := by
  cases l with
  | nil => rfl
  | cons p l' =>
    rw [List.foldl_cons]
    have hp : pyAppend "" p = p := by simp [pyAppend]
    rw [hp]
    exact foldl_pyAppend_ne l' p (h p (List.mem_cons_self p l'))

theorem runBeats_text_foldl (P : Nat → Bool) (W : Nat → String → String)
    (c : Option String) :
    ∀ (bs : List BeatRec) (i : Nat) (acc : String),
      (runBeats P W c i acc bs).text =
        List.foldl pyAppend acc
          ((runBeats P W c i acc bs).trace.map CommitSnapshot.prose) := by
  intro bs
  induction bs with
  | nil => intro i acc; simp [runBeats, RunResult.text, RunResult.trace]
  | cons b bs' ih =>
    intro i acc
    by_cases hp : P i
    · simp [runBeats, hp, RunResult.text, RunResult.trace]
    · have hih := ih (i + 1) (pyAppend acc (W i (pyTailSlice acc 2000)))
      cases hres : runBeats P W c (i + 1)
          (pyAppend acc (W i (pyTailSlice acc 2000))) bs' with
      | done tf bsf tr =>
        rw [hres] at hih
        simp only [RunResult.text, RunResult.trace] at hih
        simp [runBeats, hp, hres, RunResult.text, RunResult.trace, hih]
      | paused k tf bsf tr =>
        rw [hres] at hih
        simp only [RunResult.text, RunResult.trace] at hih
        simp [runBeats, hp, hres, RunResult.text, RunResult.trace, hih]

theorem runBeats_trace_prose_from_write (P : Nat → Bool)
    (W : Nat → String → String) (c : Option String) :
    ∀ (bs : List BeatRec) (i : Nat) (acc : String),
      ∀ s ∈ (runBeats P W c i acc bs).trace, ∃ j w, s.prose = W j w := by
  intro bs
  induction bs with
  | nil => intro i acc s hs; simp [runBeats, RunResult.trace] at hs
  | cons b bs' ih =>
    intro i acc s hs
    by_cases hp : P i
    · simp [runBeats, hp, RunResult.trace] at hs
    · cases hres : runBeats P W c (i + 1)
          (pyAppend acc (W i (pyTailSlice acc 2000))) bs' with
      | done tf bsf tr =>
        simp only [runBeats, hp, if_false, hres, RunResult.trace,
          Bool.false_eq_true, List.mem_cons] at hs
        rcases hs with hs | hs
        · exact ⟨i, pyTailSlice acc 2000, by rw [hs]⟩
        · have := ih (i + 1) (pyAppend acc (W i (pyTailSlice acc 2000))) s
          rw [hres] at this
          exact this (by simpa [RunResult.trace] using hs)
      | paused k tf bsf tr =>
        simp only [runBeats, hp, if_false, hres, RunResult.trace,
          Bool.false_eq_true, List.mem_cons] at hs
        rcases hs with hs | hs
        · exact ⟨i, pyTailSlice acc 2000, by rw [hs]⟩
        · have := ih (i + 1) (pyAppend acc (W i (pyTailSlice acc 2000))) s
          rw [hres] at this
          exact this (by simpa [RunResult.trace] using hs)

theorem runBeats_trace_commit_inv (P : Nat → Bool) (W : Nat → String → String)
    (c : Option String) :
    ∀ (bs : List BeatRec) (i : Nat) (acc : String),
      ∀ s ∈ (runBeats P W c i acc bs).trace,
        s.beatRow.status = "completed" ∧ s.beatRow.raw_text = some s.prose ∧
        s.beatRow.word_count = some (pyWordCount s.prose) ∧
        s.chapterRawText = c := by
  intro bs
  induction bs with
  | nil => intro i acc s hs; simp [runBeats, RunResult.trace] at hs
  | cons b bs' ih =>
    intro i acc s hs
    by_cases hp : P i
    · simp [runBeats, hp, RunResult.trace] at hs
    · cases hres : runBeats P W c (i + 1)
          (pyAppend acc (W i (pyTailSlice acc 2000))) bs' with
      | done tf bsf tr =>
        simp only [runBeats, hp, if_false, hres, RunResult.trace,
          Bool.false_eq_true, List.mem_cons] at hs
        rcases hs with hs | hs
        · subst hs
          simp [completedBeat]
        · have := ih (i + 1) (pyAppend acc (W i (pyTailSlice acc 2000))) s
          rw [hres] at this
          exact this (by simpa [RunResult.trace] using hs)
      | paused k tf bsf tr =>
        simp only [runBeats, hp, if_false, hres, RunResult.trace,
          Bool.false_eq_true, List.mem_cons] at hs
        rcases hs with hs | hs
        · subst hs
          simp [completedBeat]
        · have := ih (i + 1) (pyAppend acc (W i (pyTailSlice acc 2000))) s
          rw [hres] at this
          exact this (by simpa [RunResult.trace] using hs)

theorem runBeats_never_paused (W : Nat → String → String) (c : Option String) :
    ∀ (bs : List BeatRec) (i : Nat) (acc : String),
      (runBeats (fun _ => false) W c i acc bs).isPaused = false := by
  intro bs
  induction bs with
  | nil => intro i acc; simp [runBeats, RunResult.isPaused]
  | cons b bs' ih =>
    intro i acc
    have hih := ih (i + 1) (pyAppend acc (W i (pyTailSlice acc 2000)))
    cases hres : runBeats (fun _ => false) W c (i + 1)
        (pyAppend acc (W i (pyTailSlice acc 2000))) bs' with
    | done tf bsf tr =>
      simp [runBeats, hres, RunResult.isPaused]
    | paused k tf bsf tr =>
      rw [hres] at hih
      simp [RunResult.isPaused] at hih

theorem finalize_of_not_paused (r : RunResult) (h : r.isPaused = false) :
    finalize_chapter r = some ⟨some r.text, some (pyWordCount r.text),
      "completed"⟩ := by
  cases r with
  | done t bs tr => rfl
  | paused k t bs tr => simp [RunResult.isPaused] at h

theorem runBeats_paused_char (P : Nat → Bool) (W : Nat → String → String)
    (c : Option String) :
    ∀ (k i : Nat) (acc : String) (bs : List BeatRec),
      (∀ j, j < k → P (i + j) = false) → P (i + k) = true → k < bs.length →
      runBeats P W c i acc bs =
        .paused (i + k) (prefixRun W i acc bs k).1
          ((prefixRun W i acc bs k).2 ++ bs.drop k)
          (prefixTrace W c i acc bs k) := by
  intro k
  induction k with
  | zero =>
    intro i acc bs h1 h2 h3
    cases bs with
    | nil => simp at h3
    | cons b bs' =>
      have hp : P i = true := by simpa using h2
      simp [runBeats, hp, prefixRun, prefixTrace]
  | succ n ih =>
    intro i acc bs h1 h2 h3
    cases bs with
    | nil => simp at h3
    | cons b bs' =>
      have hp : P i = false := by
        have h0 := h1 0 (Nat.succ_pos n)
        simpa using h0
      have hrec := ih (i + 1) (pyAppend acc (W i (pyTailSlice acc 2000))) bs'
        (fun j hj => by
          have e : i + 1 + j = i + (j + 1) := by omega
          rw [e]
          exact h1 (j + 1) (by omega))
        (by
          have e : i + 1 + n = i + (n + 1) := by omega
          rw [e]
          exact h2)
        (by simpa using Nat.lt_of_succ_lt_succ h3)
      have e2 : i + 1 + n = i + (n + 1) := by omega
      rw [e2] at hrec
      simp [runBeats, hp, hrec, prefixRun, prefixTrace]

theorem prefixRun_length (W : Nat → String → String) :
    ∀ (k i : Nat) (acc : String) (bs : List BeatRec),
      k ≤ bs.length → ((prefixRun W i acc bs k).2).length = k := by
  intro k
  induction k with
  | zero => intro i acc bs _; simp [prefixRun]
  | succ n ih =>
    intro i acc bs h
    cases bs with
    | nil => simp at h
    | cons b bs' =>
      simp [prefixRun,
        ih (i + 1) (pyAppend acc (W i (pyTailSlice acc 2000))) bs'
          (by simpa using Nat.le_of_succ_le_succ h)]

theorem prefixRun_completed (W : Nat → String → String) :
    ∀ (k i : Nat) (acc : String) (bs : List BeatRec),
      ∀ b ∈ (prefixRun W i acc bs k).2,
        b.status = "completed" ∧ b.raw_text.isSome = true := by
  intro k
  induction k with
  | zero => intro i acc bs b hb; simp [prefixRun] at hb
  | succ n ih =>
    intro i acc bs b hb
    cases bs with
    | nil => simp [prefixRun] at hb
    | cons b0 bs' =>
      simp only [prefixRun, List.mem_cons] at hb
      rcases hb with hb | hb
      · subst hb
        simp [completedBeat]
      · exact ih (i + 1) (pyAppend acc (W i (pyTailSlice acc 2000))) bs' b hb

/-- C5: the pause flag is consulted exactly once per beat, at the boundary
before the beat (the progress callback of generation_logic.py raises
InterruptedError there); the write/review/revise pipeline for one beat is a
single oracle call with no pause parameter.  If the flag is clear at the
first k boundaries and set at boundary k (e.g. because the signal arrived
while beat k-1 was in its edit loop), the run is interrupted exactly at
boundary k: every earlier beat was accepted and persisted with status
"completed", the beats from k on are untouched, the chapter is not
finalized, and the project transitions to status "paused". -/
theorem pause_checked_only_at_beat_boundaries (P : Nat → Bool)
    (W : Nat → String → String) (beats : List BeatRec) (k : Nat)
    (h1 : ∀ j, j < k → P j = false) (h2 : P k = true) (h3 : k < beats.length) :
    (generate_chapter_run P W beats).isPaused = true ∧
    (generate_chapter_run P W beats).pausedAt = some k ∧
    project_status_after_run "generating" (generate_chapter_run P W beats) =
      "paused" ∧
    (generate_chapter_run P W beats).beats.length = beats.length ∧
    (∀ b ∈ (generate_chapter_run P W beats).beats.take k,
      b.status = "completed" ∧ b.raw_text.isSome = true) ∧
    (generate_chapter_run P W beats).beats.drop k = beats.drop k ∧
    finalize_chapter (generate_chapter_run P W beats) = none := by
  have hchar := runBeats_paused_char P W none k 0 "" beats
    (fun j hj => by simpa using h1 j hj)
    (by simpa using h2) h3
  have hzero : (0 : Nat) + k = k := Nat.zero_add k
  rw [hzero] at hchar
  have hlen : ((prefixRun W 0 "" beats k).2).length = k :=
    prefixRun_length W k 0 "" beats (le_of_lt h3)
  unfold generate_chapter_run
  rw [hchar]
  refine ⟨rfl, rfl, rfl, ?_, ?_, ?_, rfl⟩
  · simp only [RunResult.beats]
    rw [List.length_append, hlen, List.length_drop]
    omega
  · intro b hb
    simp only [RunResult.beats] at hb
    rw [List.take_left' hlen] at hb
    exact prefixRun_completed W k 0 "" beats b hb
  · simp only [RunResult.beats]
    rw [List.drop_left' hlen]

/-- Witness for C5: pause signalled at the boundary before beat 1 (0-based)
of a two-beat chapter: beat 0 is completed and persisted, beat 1 is
untouched, the project is paused. -/
theorem pause_checked_only_at_beat_boundaries_witness :
    (generate_chapter_run (fun i => decide (i = 1)) (fun _ _ => "w")
      twoPendingBeats).isPaused = true ∧
    (generate_chapter_run (fun i => decide (i = 1)) (fun _ _ => "w")
      twoPendingBeats).pausedAt = some 1 ∧
    project_status_after_run "generating"
      (generate_chapter_run (fun i => decide (i = 1)) (fun _ _ => "w")
        twoPendingBeats) = "paused" ∧
    (generate_chapter_run (fun i => decide (i = 1)) (fun _ _ => "w")
      twoPendingBeats).beats.length = twoPendingBeats.length ∧
    (∀ b ∈ (generate_chapter_run (fun i => decide (i = 1)) (fun _ _ => "w")
      twoPendingBeats).beats.take 1,
      b.status = "completed" ∧ b.raw_text.isSome = true) ∧
    (generate_chapter_run (fun i => decide (i = 1)) (fun _ _ => "w")
      twoPendingBeats).beats.drop 1 = twoPendingBeats.drop 1 ∧
    finalize_chapter (generate_chapter_run (fun i => decide (i = 1))
      (fun _ _ => "w") twoPendingBeats) = none :=
  pause_checked_only_at_beat_boundaries (fun i => decide (i = 1))
    (fun _ _ => "w") twoPendingBeats 1 (by decide) (by decide) (by decide)

/-- C1 counterexample: when the first accepted beat prose is the empty
string, the accumulation `chapter_text += "\n\n" + beat_text if
chapter_text else beat_text` drops the leading paragraph break, so the
persisted chapter text ("x") differs from the separator-joined
concatenation of the accepted proses ("\n\nx"). -/
theorem chapter_text_separator_counterexample :
    (generate_chapter_run (fun _ => false)
      (fun i _ => if i = 0 then "" else "x") twoPendingBeats).text = "x" ∧
    sepConcat (((generate_chapter_run (fun _ => false)
      (fun i _ => if i = 0 then "" else "x") twoPendingBeats).trace).map
        CommitSnapshot.prose) = "\n\nx" ∧
    ("x" : String) ≠ "\n\nx" := by decide

/-- C1 (amended): provided every accepted beat prose is non-empty, the
chapter text persisted at finalization equals the accepted proses of the
beats concatenated in beat order separated by "\n\n", and the persisted
word_count is the word count of that concatenation (and the chapter status
is "completed"). -/
theorem chapter_text_eq_joined_proses (W : Nat → String → String)
    (beats : List BeatRec) (hne : ∀ i w, W i w ≠ "") :
    (generate_chapter_run (fun _ => false) W beats).text =
      sepConcat (((generate_chapter_run (fun _ => false) W beats).trace).map
        CommitSnapshot.prose) ∧
    finalize_chapter (generate_chapter_run (fun _ => false) W beats) =
      some ⟨some (sepConcat (((generate_chapter_run (fun _ => false) W
          beats).trace).map CommitSnapshot.prose)),
        some (pyWordCount (sepConcat (((generate_chapter_run (fun _ => false)
          W beats).trace).map CommitSnapshot.prose))), "completed"⟩ := by
  have htext := runBeats_text_foldl (fun _ => false) W none beats 0 ""
  have hpr : ∀ p ∈ ((generate_chapter_run (fun _ => false) W
      beats).trace).map CommitSnapshot.prose, p ≠ "" := by
    intro p hp
    rcases List.mem_map.mp hp with ⟨s, hs, hsp⟩
    rcases runBeats_trace_prose_from_write (fun _ => false) W none beats 0 ""
      s hs with ⟨j, w, hw⟩
    rw [← hsp, hw]
    exact hne j w
  have h1 : (generate_chapter_run (fun _ => false) W beats).text =
      sepConcat (((generate_chapter_run (fun _ => false) W beats).trace).map
        CommitSnapshot.prose) :=
    htext.trans (foldl_pyAppend_sepConcat _ hpr)
  refine ⟨h1, ?_⟩
  rw [finalize_of_not_paused (generate_chapter_run (fun _ => false) W beats)
    (runBeats_never_paused W none beats 0 ""), h1]

/-- Witness for C1 (amended): with a writer that always produces "w" on a
two-beat chapter, the finalized chapter text is the "\n\n"-joined proses
and the word count matches. -/
theorem chapter_text_eq_joined_proses_witness :
    (generate_chapter_run (fun _ => false) (fun _ _ => "w")
      twoPendingBeats).text =
      sepConcat (((generate_chapter_run (fun _ => false) (fun _ _ => "w")
        twoPendingBeats).trace).map CommitSnapshot.prose) ∧
    finalize_chapter (generate_chapter_run (fun _ => false) (fun _ _ => "w")
      twoPendingBeats) =
      some ⟨some (sepConcat (((generate_chapter_run (fun _ => false)
          (fun _ _ => "w") twoPendingBeats).trace).map CommitSnapshot.prose)),
        some (pyWordCount (sepConcat (((generate_chapter_run (fun _ => false)
          (fun _ _ => "w") twoPendingBeats).trace).map
            CommitSnapshot.prose))), "completed"⟩ :=
  chapter_text_eq_joined_proses (fun _ _ => "w") twoPendingBeats
    (fun _ _ => (by decide : ("w" : String) ≠ ""))

/-- C7 counterexample: at the per-beat commit after the first beat the
accumulated chapter text is "alpha", but the chapter row's raw_text as
persisted by that commit is still NULL — generate_chapter assigns
`chapter.raw_text` only once, at finalization, so the updated accumulated
chapter text is not persisted after every beat. -/
theorem per_beat_commit_chapter_text_counterexample :
    ((generate_chapter_run (fun _ => false) (fun _ _ => "alpha")
      twoPendingBeats).trace.head?).map
        (fun s => (s.chapterRawText, s.accText)) = some (none, "alpha") ∧
    (none : Option String) ≠ some "alpha" := by decide

/-- C7 (amended): after every single beat the finalized beat record is
persisted — status "completed", raw_text equal to the accepted prose and
word_count equal to its word count — while the chapter row's raw_text stays
NULL until finalization; the final chapter text is exactly the fold of the
per-beat persisted proses, so a crash loses at most the one in-flight
beat's prose (everything else is recoverable from the beat rows). -/
theorem per_beat_persistence (W : Nat → String → String)
    (beats : List BeatRec) :
    (∀ s ∈ (generate_chapter_run (fun _ => false) W beats).trace,
      s.beatRow.status = "completed" ∧ s.beatRow.raw_text = some s.prose ∧
      s.beatRow.word_count = some (pyWordCount s.prose) ∧
      s.chapterRawText = none) ∧
    (generate_chapter_run (fun _ => false) W beats).text =
      List.foldl pyAppend ""
        (((generate_chapter_run (fun _ => false) W beats).trace).map
          CommitSnapshot.prose) :=
  ⟨fun s hs =>
    runBeats_trace_commit_inv (fun _ => false) W none beats 0 "" s hs,
    runBeats_text_foldl (fun _ => false) W none beats 0 ""⟩

/-- C4: the code has no beat-level resumption.  generate_all_chapters only
selects chapters whose status is exactly "pending", so a chapter left in
status "generating" by an interrupted run is never re-entered; and the beat
loop of generate_chapter iterates over every beat row regardless of status
starting from empty accumulated text, so re-running a chapter with beats
1-4 already completed performs 10 writes (not 6) and overwrites the
already-persisted prose of beat 1. -/
theorem interrupted_chapter_not_resumed_eval :
    chapter_selected_for_generation 1 3 "generating" = false ∧
    (generate_chapter_run (fun _ => false) (fun _ _ => "fresh")
      interruptedChapterBeats).trace.length = 10 ∧
    ((generate_chapter_run (fun _ => false) (fun _ _ => "fresh")
      interruptedChapterBeats).beats.map BeatRec.raw_text).take 4 =
      [some "fresh", some "fresh", some "fresh", some "fresh"] ∧
    (some "old1" : Option String) ≠ some "fresh" := by decide

/-- C6: when the Beater call raises, generate_chapter has already set the
chapter status to "generating" and creates no beat rows; the exception
propagates and no code path ever assigns status "failed" to the chapter,
which therefore stays "generating" (and, being neither "pending" nor
touched again, a previously completed chapter is not selected or
modified). -/
theorem decomposition_failure_leaves_generating_eval :
    decomposition_phase (Except.error "DecompositionError") =
      ⟨some "DecompositionError", "generating", 0⟩ ∧
    ("generating" : String) ≠ "failed" ∧
    chapter_selected_for_generation 1 1 "completed" = false := by
  refine ⟨rfl, by decide, rfl⟩

/-- C8: a failing lookup inside assemble_context_for_writing propagates out
of the assembly (there is no handler), and generate_chapter does not guard
the call either, so the whole chapter generation aborts instead of
proceeding with the context already available. -/
theorem context_failure_aborts_generation_eval :
    assemble_context_for_writing (Except.ok "chars")
      (Except.error "lookup failed") (Except.ok []) "so far" =
      Except.error "lookup failed" ∧
    generate_chapter_abort_on_context (Except.error "lookup failed")
      (fun _ => RunResult.done "" [] []) = Except.error "lookup failed" ∧
    (generate_chapter_abort_on_context (Except.error "lookup failed")
      (fun _ => RunResult.done "" [] [])).isOk = false :=
  ⟨rfl, rfl, rfl⟩

end Orion
